import Mathlib

/-!
Verification of the Aptoide scraper service (`app/main.py`, `app/models.py`).

The development shallowly embeds the program: JSON payloads become an inductive
`Json` type, Python dict/string operations become structural Lean functions, and
code that can raise becomes `Except`-valued.  Python raises are modelled by the
`PyExn` type: `HTTPException(status, detail)` becomes `PyExn.http`, and any other
uncaught Python exception (`AttributeError`, `TypeError`, ...) becomes the single
constructor `PyExn.pyError` (no claim distinguishes between those).

Numeric note: the source's arithmetic is CPython binary64 floating point, and
the embedding models it exactly: `float(x)` is `floatOfInt` (round to 53
significant bits, ties to even), int/int true division is `fdiv` (the exact
fraction correctly rounded once to binary64), division by 1024 is exact in
binary64 (a pure exponent shift), and `f"{v:.0f}"` is `roundHalfEven` of the
exact float value.  The integer tier comparisons (`>=`) in the source compare
ints and are exact.  Float values are carried exactly, as integers or as
(mantissa, binary exponent) pairs; the float overflow range (inputs beyond
`2^1024`, where CPython raises OverflowError) is outside every claim and is
not modelled.
-/

namespace Aptoide

/-- JSON values, as far as this program inspects them: objects are ordered
key/value lists (Python dicts), numbers are integers (the fields the program
reads — `size`, `downloads` — are integral). -/
inductive Json where
  | null : Json
  | str (s : String) : Json
  | int (n : Int) : Json
  | arr (elems : List Json) : Json
  | obj (fields : List (String × Json)) : Json

/-- Dict lookup: the value of the LAST binding of `k` (Python dicts hold one
binding per key, and assigning again overrides, so last wins). -/
def lookupLast {α : Type} (m : List (String × α)) (k : String) : Option α :=
  m.foldl (fun acc p => if p.1 = k then some p.2 else acc) none

/-- Python truthiness of a JSON value (`if not x`). -/
def Json.truthy : Json → Bool
  | .null => false
  | .str s => !(s == "")
  | .int n => !(n == 0)
  | .arr l => !l.isEmpty
  | .obj l => !l.isEmpty

/-- A raised Python exception: `HTTPException(status_code, detail)`, or any
other uncaught exception (AttributeError / TypeError / ...), which FastAPI
would surface as a server error; no claim depends on the latter's payload. -/
inductive PyExn where
  | http (status : Nat) (detail : String) : PyExn
  | pyError : PyExn

/-- Result of running a piece of the Python program. -/
abbrev Py (α : Type) := Except PyExn α

/-- Python `j.get(key, default)`: dict lookup with default.  On a non-dict the
attribute `.get` does not exist, so Python raises (AttributeError). -/
def Json.pyGet (j : Json) (key : String) (default : Json) : Py Json :=
  match j with
  | .obj fields => .ok ((lookupLast fields key).getD default)
  | _ => .error .pyError

/-- Python `x[0]`: first element of a list; first character of a non-empty string;
anything else raises (IndexError / TypeError). -/
def pyIndex0 (j : Json) : Py Json :=
  match j with
  | .arr (x :: _) => .ok x
  | .str s =>
      match s.data with
      | c :: _ => .ok (.str (String.mk [c]))
      | [] => .error .pyError
  | _ => .error .pyError

/-- Pydantic validation of an `Optional[str]` field of `AppResponse`
(`app/models.py`): `None` and strings are accepted as given; the claims fix
every other shape out of their hypotheses, and the model treats them as a
validation failure. -/
def asOptStr (j : Json) : Py (Option String) :=
  match j with
  | .null => .ok none
  | .str s => .ok (some s)
  | _ => .error .pyError

/-- The integer-or-`None` values fed to the two formatters (the data model
fixes `size` and `downloads` to integer-or-absent; anything else is out of the
claims' hypotheses and modelled as a failure). -/
def asOptInt (j : Json) : Py (Option Int) :=
  match j with
  | .null => .ok none
  | .int n => .ok (some n)
  | _ => .error .pyError

/-- Rounding of the exact rational `num / den` (`den > 0`) to the nearest
integer with ties to even — the rounding performed by Python's `f"{v:.0f}"`
on the float values arising in this program. -/
def roundHalfEven (num den : Int) : Int :=
  let q := num / den
  let r := num % den
  if 2 * r < den then q
  else if den < 2 * r then q + 1
  else if q % 2 = 0 then q else q + 1

/-- Number of binary digits of `n` (0 for `n = 0`).  `bitlenFuel` recurses on
structural fuel so that the kernel can evaluate it; 1100 units of fuel cover
every magnitude below the float overflow range. -/
def bitlenFuel : Nat → Nat → Nat
  | 0, _ => 0
  | fuel + 1, n => if n = 0 then 0 else bitlenFuel fuel (n / 2) + 1

/-- Bit length of a natural number. -/
def bitlen (n : Nat) : Nat := bitlenFuel 1100 n

/-- The exact value of Python `float(B)` for an integer `B`: round `B` to 53
significant bits, ties to even.  The result is again an integer, because
rounding only occurs for `|B| ≥ 2^53`, where the unit in the last place
`2^(bitlen|B| - 53)` is at least 1. -/
def floatOfInt (B : Int) : Int :=
  if B.natAbs < 2 ^ 53 then B
  else
    B.sign *
      (roundHalfEven (B.natAbs : Int) (2 ^ (bitlen B.natAbs - 53)) *
        2 ^ (bitlen B.natAbs - 53))

/-- The exact value of the correctly rounded binary64 quotient `num / den`
(Python's int/int true division rounds the exact fraction once), as a
(mantissa, binary exponent) pair: the unit in the last place is `2^(L-53)`,
`L` the bit length of the integer part of the quotient.  Modelled for the
quotients the program forms: at least 1 and below the float overflow range. -/
def fdiv (num den : Int) : Int × Int :=
  let L := bitlen (num / den).toNat
  if 53 ≤ L then
    (roundHalfEven num (den * 2 ^ (L - 53)), (L : Int) - 53)
  else
    (roundHalfEven (num * 2 ^ (53 - L)) den, (L : Int) - 53)

/-- Python `f"{v:.0f}"` on the float value `m·2^e`: round half-to-even to an
integer. -/
def fmtZero (f : Int × Int) : Int :=
  if 0 ≤ f.2 then f.1 * 2 ^ f.2.toNat else roundHalfEven f.1 (2 ^ (-f.2).toNat)

/-- The integer printed by `f"{num/den:.0f}"` in Python for `0 < den ≤ num`:
the correctly rounded float quotient, rounded again by `%.0f` — two roundings,
which is why huge counts can print differently from the exactly rounded
fraction. -/
def pyDivFmt (num den : Int) : Int := fmtZero (fdiv num den)

/-- The list `units = ["B", "KB", "MB", "GB"]` from `format_size`. -/
def sizeUnits : List String := ["B", "KB", "MB", "GB"]

/-- The `for unit in units` loop of `format_size`, where `b` is the exact
integer value of the binary64 `float(bytes_value)`: the running float `size`
is exactly `b / den` (dividing a binary64 by 1024 only shifts its exponent,
losing nothing); `size < 1024` is `b < 1024 * den`; after the loop the value
falls through to TB; `f"{size:.0f}"` is `roundHalfEven b den`. -/
def sizeLoop (b : Int) (den : Int) : List String → String
  | [] => toString (roundHalfEven b den) ++ " TB"
  | u :: rest =>
      if b < 1024 * den then toString (roundHalfEven b den) ++ " " ++ u
      else sizeLoop b (1024 * den) rest

/-- The function `format_size` (`app/main.py` lines 60-85): `None`/`0` give `None`
(`if not bytes_value`); otherwise `float(bytes_value)` runs through the unit
loop. -/
def format_size (bytes_value : Option Int) : Option String :=
  match bytes_value with
  | none => none
  | some b => if b = 0 then none else some (sizeLoop (floatOfInt b) 1 sizeUnits)

/-- The function `format_downloads` (`app/main.py` lines 88-108): the tier
comparisons are exact int comparisons; each taken tier prints the float
quotient with `%.0f` (`pyDivFmt`). -/
def format_downloads (downloads : Option Int) : Option String :=
  match downloads with
  | none => none
  | some d =>
    if d = 0 then none
    else if 1000000000 ≤ d then some (toString (pyDivFmt d 1000000000) ++ "B")
    else if 1000000 ≤ d then some (toString (pyDivFmt d 1000000) ++ "M")
    else if 1000 ≤ d then some (toString (pyDivFmt d 1000) ++ "K")
    else some (toString d)

/-- Python `owner.split(",")` on the character list: comma-separated segments
(Python's `str.split` on a one-character separator; `"".split(",") = [""]`). -/
def splitOnComma : List Char → List (List Char)
  | [] => [[]]
  | c :: rest =>
      if c = ',' then [] :: splitOnComma rest
      else
        match splitOnComma rest with
        | g :: gs => (c :: g) :: gs
        | [] => [[c]]

/-- Python `kv.split("=", 1)` guarded by `"=" in kv`: `some (before, after)` around
the FIRST `=`, `none` when the segment contains no `=`. -/
def splitFirstEqChars : List Char → Option (List Char × List Char)
  | [] => none
  | c :: rest =>
      if c = '=' then some ([], rest)
      else
        match splitFirstEqChars rest with
        | some (k, v) => some (c :: k, v)
        | none => none

/-- Python `s.strip()`: drop whitespace from both ends (Python's and Lean's notion of
whitespace agree on the ASCII whitespace appearing in certificate strings). -/
def stripChars (l : List Char) : List Char :=
  ((l.dropWhile Char.isWhitespace).reverse.dropWhile Char.isWhitespace).reverse

/-- The successive `kv_pairs[key.strip()] = value.strip()` assignments of
`parse_certificate`, in segment order; the dict they build answers a lookup
with the LAST assignment to the key (`lookupLast`). -/
def kvPairs (owner : String) : List (String × String) :=
  (splitOnComma owner.data).filterMap (fun kv =>
    (splitFirstEqChars kv).map (fun p =>
      (String.mk (stripChars p.1), String.mk (stripChars p.2))))

/-- Python `kv_pairs.get(k)` for the dict built by `parse_certificate`. -/
def dictGetLast (m : List (String × String)) (k : String) : Option String :=
  m.foldl (fun acc p => if p.1 = k then some p.2 else acc) none

/-- A Python value `str`-or-`None` as JSON. -/
def jOfOpt : Option String → Json
  | none => .null
  | some s => .str s

/-- The dict literal `parse_certificate` returns when `owner` is present:
five fixed keys looked up in `kv_pairs` (absent lookups give `None`). -/
def certResult (owner : String) : Json :=
  let m := kvPairs owner
  .obj [("developer_cn", jOfOpt (dictGetLast m "CN")),
        ("organization", jOfOpt (dictGetLast m "O")),
        ("local", jOfOpt (dictGetLast m "L")),
        ("state_city", jOfOpt (dictGetLast m "ST")),
        ("country", jOfOpt (dictGetLast m "C"))]

/-- Whether `"owner" in s` holds for a Python string `s` (substring test). -/
def hasOwnerSub : List Char → Bool
  | [] => false
  | c :: rest => (List.isPrefixOf "owner".data (c :: rest)) || hasOwnerSub rest

/-- The function `parse_certificate` (`app/main.py` lines 111-142).  `if not cert_obj or
"owner" not in cert_obj: return {}` — Python's `in` is key lookup on dicts,
substring test on strings, membership on lists, and a TypeError on ints; a
hit on a non-dict then crashes at `cert_obj["owner"]`, and a non-string
`owner` crashes at `.split`. -/
def parse_certificate (cert_obj : Json) : Py Json :=
  if cert_obj.truthy then
    match cert_obj with
    | .obj fields =>
        match lookupLast fields "owner" with
        | none => .ok (.obj [])
        | some (.str owner) => .ok (certResult owner)
        | some _ => .error .pyError
    | .str s => if hasOwnerSub s.data then .error .pyError else .ok (.obj [])
    | .arr elems =>
        if elems.any (fun e => match e with | .str t => t == "owner" | _ => false)
        then .error .pyError else .ok (.obj [])
    | _ => .error .pyError
  else .ok (.obj [])

/-- The model `AppResponse` (`app/models.py`): all fields `Optional[str]`.  The source
field `local` is a Lean keyword, embedded as `local_`. -/
structure AppResponse where
  name : Option String
  size : Option String
  downloads : Option String
  version : Option String
  release_date : Option String
  min_screen : Option String
  supported_cpu : Option String
  package_id : Option String
  sha1_signature : Option String
  developer_cn : Option String
  organization : Option String
  local_ : Option String
  country : Option String
  state_city : Option String

/-- The endpoint handler `get_aptoide_app` (`app/main.py` lines 145-189),
as a function of the already-fetched payload `data` (the claims about the
fetch itself are settled against `fetch_from_aptoide` below).  Missing keys
passed through `**cert_fields` leave the corresponding `Optional[str]`
pydantic fields at their implicit `None` default, which the `.pyGet _ .null`
default mirrors. -/
def get_aptoide_app (data : Json) : Py AppResponse := do
  let datalist ← data.pyGet "datalist" (.obj [])
  let apps ← datalist.pyGet "list" (.arr [])
  if apps.truthy then do
    let app_data ← pyIndex0 apps
    let file_data ← app_data.pyGet "file" (.obj [])
    let signature ← file_data.pyGet "signature" (.obj [])
    let cert ← parse_certificate signature
    let name ← asOptStr (← app_data.pyGet "name" .null)
    let size ← asOptInt (← app_data.pyGet "size" .null)
    let downloads ← asOptInt (← app_data.pyGet "downloads" .null)
    let version ← asOptStr (← file_data.pyGet "vername" .null)
    let release_date ← asOptStr (← file_data.pyGet "added" .null)
    let min_screen ← asOptStr (← file_data.pyGet "screensize" .null)
    let supported_cpu ← asOptStr (← file_data.pyGet "cpu" .null)
    let package_id ← asOptStr (← app_data.pyGet "package" .null)
    let sha1_signature ← asOptStr (← signature.pyGet "sha1" .null)
    let developer_cn ← asOptStr (← cert.pyGet "developer_cn" .null)
    let organization ← asOptStr (← cert.pyGet "organization" .null)
    let local_ ← asOptStr (← cert.pyGet "local" .null)
    let state_city ← asOptStr (← cert.pyGet "state_city" .null)
    let country ← asOptStr (← cert.pyGet "country" .null)
    return { name := name, size := format_size size,
             downloads := format_downloads downloads,
             version := version, release_date := release_date,
             min_screen := min_screen, supported_cpu := supported_cpu,
             package_id := package_id, sha1_signature := sha1_signature,
             developer_cn := developer_cn, organization := organization,
             local_ := local_, country := country, state_city := state_city }
  else .error (.http 404 "Package not found")

/-- What the remote side of the single outbound GET did: the request raised
(connection failure or timeout — httpx surfaces both as exceptions with a
message), or a response with a status code and JSON body arrived. -/
inductive RemoteOutcome where
  | exn (cause : String) : RemoteOutcome
  | response (status : Nat) (body : Json) : RemoteOutcome

/-- The function `fetch_from_aptoide` (`app/main.py` lines 27-57) as a function of the
remote outcome. -/
def fetch_from_aptoide (outcome : RemoteOutcome) : Py Json :=
  match outcome with
  | .exn cause =>
      .error (.http 500 ("Connection error while requesting Aptoide: " ++ cause))
  | .response status body =>
      if status ≠ 200 then
        .error (.http 500 ("Aptoide API error: HTTP " ++ toString status))
      else .ok body

/-! ### Spec-side definitions

The definitions below are written from the specification's words (spec.md §4.4,
§6, §8 and the claims), to be compared with the source-translated functions
above. -/

/-- Spec §8 / C2: the unit names for the tiers `k = 0..4`
(`B`, `KB`, `MB`, `GB`, capped at `TB`). -/
def sizeUnitName : Nat → String
  | 0 => "B"
  | 1 => "KB"
  | 2 => "MB"
  | 3 => "GB"
  | _ => "TB"

/-- Spec §4.4 / C5, the Certificate Parser's lookup, written from the spec's
words: split the `owner` string on commas; split each comma-segment on the
FIRST `=` only (values may contain further `=`); trim whitespace from both key
and value; silently skip segments containing no `=`; the mapping built from the
segments in order (a later segment with the same key overrides an earlier one,
as dict assignment does) is consulted at `key`; a missing key is absent. -/
def dnLookup (owner : String) (key : String) : Option String :=
  (splitOnComma owner.data).foldl
    (fun acc seg =>
      match splitFirstEqChars seg with
      | none => acc
      | some p =>
          if String.mk (stripChars p.1) = key then some (String.mk (stripChars p.2))
          else acc)
    none

/-- The value of key `k` in JSON object `a`, with default `d` when the key is
absent (statement-side counterpart of `dict.get`). -/
def jgetD (a : Json) (k : String) (d : Json) : Json :=
  match a with
  | .obj fs => (lookupLast fs k).getD d
  | _ => d

/-- A JSON string as an optional string (anything else is absent). -/
def jOptStr : Json → Option String
  | .str s => some s
  | _ => none

/-- A JSON integer as an optional integer (anything else is absent). -/
def jOptInt : Json → Option Int
  | .int n => some n
  | _ => none

/-- Is this JSON value a string or `null`? -/
def isOptStrJ : Json → Bool
  | .null => true
  | .str _ => true
  | _ => false

/-- Is this JSON value an integer or `null`? -/
def isOptIntJ : Json → Bool
  | .null => true
  | .int _ => true
  | _ => false

/-- The signature object as the data model types it: a JSON object whose
`owner`, when present, is a string (spec §3: "a signature object with `sha1`
and `owner` (a distinguished-name string)"). -/
def certWellFormed : Json → Bool
  | .obj sfs =>
      match lookupLast sfs "owner" with
      | none => true
      | some (.str _) => true
      | some _ => false
  | _ => false

/-- The `file` sub-object as the data model types it (spec §3): an object
whose `vername`/`added`/`screensize`/`cpu` are strings or null, and whose
`signature`, when present, is a well-formed signature object with a
string-or-null `sha1`. -/
def wellTypedFile (file : Json) : Bool :=
  match file with
  | .obj _ =>
      isOptStrJ (jgetD file "vername" .null) && isOptStrJ (jgetD file "added" .null) &&
      isOptStrJ (jgetD file "screensize" .null) && isOptStrJ (jgetD file "cpu" .null) &&
      certWellFormed (jgetD file "signature" (.obj [])) &&
      isOptStrJ (jgetD (jgetD file "signature" (.obj [])) "sha1" .null)
  | _ => false

/-- A search-result element as the data model types it (spec §3,
RawSearchResult): an object with string-or-null `name`/`package`,
integer-or-null `size`/`downloads`, and a well-typed `file` sub-object when
present (absent `file` defaults to the empty object). -/
def wellTypedApp (a : Json) : Bool :=
  match a with
  | .obj _ =>
      isOptStrJ (jgetD a "name" .null) && isOptIntJ (jgetD a "size" .null) &&
      isOptIntJ (jgetD a "downloads" .null) && isOptStrJ (jgetD a "package" .null) &&
      wellTypedFile (jgetD a "file" (.obj []))
  | _ => false

/-- Spec §6: the certificate-parsed value at `key` (CN/O/L/ST/C) of the
signature object's `owner` distinguished-name string; absent when the
signature object has no `owner`. -/
def specCert (signature : Json) (key : String) : Option String :=
  match signature with
  | .obj sfs =>
      match lookupLast sfs "owner" with
      | some (.str owner) => dnLookup owner key
      | _ => none
  | _ => none

/-- Spec §6 / C1, the AppMetadata record assembled field-by-field from one
search-result element, following the spec's field correspondence:
`name`→name, `size` (via Size Formatter)→size, `downloads` (via Download
Formatter)→downloads, `file.vername`→version, `file.added`→release_date,
`file.screensize`→min_screen, `file.cpu`→supported_cpu, `package`→package_id,
`file.signature.sha1`→sha1_signature, certificate-parsed CN/O/L/ST/C→
developer_cn/organization/local/state_city/country; missing `file` or
`signature` sub-objects default to empty objects. -/
def assembleFromFirst (a : Json) : AppResponse :=
  let file := jgetD a "file" (.obj [])
  let signature := jgetD file "signature" (.obj [])
  { name := jOptStr (jgetD a "name" .null)
    size := format_size (jOptInt (jgetD a "size" .null))
    downloads := format_downloads (jOptInt (jgetD a "downloads" .null))
    version := jOptStr (jgetD file "vername" .null)
    release_date := jOptStr (jgetD file "added" .null)
    min_screen := jOptStr (jgetD file "screensize" .null)
    supported_cpu := jOptStr (jgetD file "cpu" .null)
    package_id := jOptStr (jgetD a "package" .null)
    sha1_signature := jOptStr (jgetD signature "sha1" .null)
    developer_cn := specCert signature "CN"
    organization := specCert signature "O"
    local_ := specCert signature "L"
    country := specCert signature "C"
    state_city := specCert signature "ST" }

/-- All five certificate-derived fields of a parsed-certificate dict are
absent (missing or `None`) — the spec's "empty mapping (all derived fields
absent downstream)". -/
def certAbsent (j : Json) : Bool :=
  match j with
  | .obj cfs =>
      ["developer_cn", "organization", "local", "state_city", "country"].all (fun k =>
        match lookupLast cfs k with
        | none => true
        | some .null => true
        | some _ => false)
  | _ => false


/-! ### Helper lemmas -/

theorem py_bind_ok {α β : Type} (a : α) (f : α → Py β) :
    (Except.ok a >>= f : Py β) = f a := rfl

theorem py_bind_error {α β : Type} (e : PyExn) (f : α → Py β) :
    ((Except.error e : Py α) >>= f) = Except.error e := rfl

theorem py_pure {α : Type} (a : α) : (pure a : Py α) = Except.ok a := rfl

theorem pyGet_obj (fs : List (String × Json)) (k : String) (d : Json) :
    (Json.obj fs).pyGet k d = .ok ((lookupLast fs k).getD d) := rfl

theorem asOptStr_of_isOptStrJ {j : Json} (h : isOptStrJ j = true) :
    asOptStr j = .ok (jOptStr j) := by
  cases j <;> simp_all [asOptStr, jOptStr, isOptStrJ]

theorem asOptInt_of_isOptIntJ {j : Json} (h : isOptIntJ j = true) :
    asOptInt j = .ok (jOptInt j) := by
  cases j <;> simp_all [asOptInt, jOptInt, isOptIntJ]

theorem asOptStr_jOfOpt (o : Option String) : asOptStr (jOfOpt o) = .ok o := by
  cases o <;> rfl

/-- The fold that answers a key lookup over the assignment list built by
`parse_certificate` equals the spec-side per-key fold over the raw segments. -/
theorem certFold (key : String) (segs : List (List Char)) (acc : Option String) :
    ((segs.filterMap (fun kv => (splitFirstEqChars kv).map (fun p =>
        (String.mk (stripChars p.1), String.mk (stripChars p.2))))).foldl
      (fun acc p => if p.1 = key then some p.2 else acc) acc)
    = segs.foldl (fun acc seg =>
        match splitFirstEqChars seg with
        | none => acc
        | some p =>
            if String.mk (stripChars p.1) = key then some (String.mk (stripChars p.2))
            else acc) acc := by
  induction segs generalizing acc with
  | nil => rfl
  | cons seg rest ih => cases hs : splitFirstEqChars seg <;> simp [List.filterMap_cons, hs, ih]

/-- The dict built by `parse_certificate` answers lookups exactly as the
spec-side `dnLookup` does. -/
theorem dictGetLast_kvPairs (owner key : String) :
    dictGetLast (kvPairs owner) key = dnLookup owner key := by
  unfold dictGetLast kvPairs dnLookup
  exact certFold key (splitOnComma owner.data) none

theorem parse_certificate_no_owner (sfs : List (String × Json))
    (ho : lookupLast sfs "owner" = none) :
    parse_certificate (.obj sfs) = .ok (.obj []) := by
  cases sfs with
  | nil => rfl
  | cons p l => simp [parse_certificate, Json.truthy, ho]

theorem parse_certificate_owner (sfs : List (String × Json)) (owner : String)
    (ho : lookupLast sfs "owner" = some (.str owner)) :
    parse_certificate (.obj sfs) = .ok (certResult owner) := by
  cases sfs with
  | nil => simp [lookupLast] at ho
  | cons p l => simp [parse_certificate, Json.truthy, ho]

/-- On a well-formed signature object, `parse_certificate` succeeds and the
five keys of the dict it returns carry exactly the spec-side certificate
lookups (absent when `owner` is absent). -/
theorem parse_certificate_wf (signature : Json) (h : certWellFormed signature = true) :
    ∃ cfs, parse_certificate signature = .ok (.obj cfs) ∧
      (lookupLast cfs "developer_cn").getD .null = jOfOpt (specCert signature "CN") ∧
      (lookupLast cfs "organization").getD .null = jOfOpt (specCert signature "O") ∧
      (lookupLast cfs "local").getD .null = jOfOpt (specCert signature "L") ∧
      (lookupLast cfs "state_city").getD .null = jOfOpt (specCert signature "ST") ∧
      (lookupLast cfs "country").getD .null = jOfOpt (specCert signature "C") := by
  cases signature with
  | obj sfs =>
    cases ho : lookupLast sfs "owner" with
    | none =>
      refine ⟨[], parse_certificate_no_owner sfs ho, ?_, ?_, ?_, ?_, ?_⟩ <;>
        · simp only [specCert, ho]
          rfl
    | some v =>
      cases v with
      | str owner =>
        refine ⟨_, parse_certificate_owner sfs owner ho, ?_, ?_, ?_, ?_, ?_⟩ <;>
          · simp only [specCert, ho]
            rw [← dictGetLast_kvPairs]
            rfl
      | null => simp [certWellFormed, ho] at h
      | int n => simp [certWellFormed, ho] at h
      | arr l => simp [certWellFormed, ho] at h
      | obj l => simp [certWellFormed, ho] at h
  | null => simp [certWellFormed] at h
  | str s => simp [certWellFormed] at h
  | int n => simp [certWellFormed] at h
  | arr l => simp [certWellFormed] at h


theorem if_truthy_cons {α : Type} (x : Json) (l : List Json) (t e : α) :
    (if (Json.arr (x :: l)).truthy = true then t else e) = t := rfl

theorem if_truthy_nil {α : Type} (t e : α) :
    (if (Json.arr []).truthy = true then t else e) = e := rfl

theorem handler_notfound (dfields dlfields : List (String × Json))
    (hdl : (lookupLast dfields "datalist").getD (.obj []) = .obj dlfields)
    (hl : (lookupLast dlfields "list").getD (.arr []) = .arr []) :
    get_aptoide_app (.obj dfields) = .error (.http 404 "Package not found") := by
  simp only [get_aptoide_app]
  rw [pyGet_obj, hdl, py_bind_ok, pyGet_obj, hl, py_bind_ok]
  rfl

/-- The handler on a payload whose (well-typed) result list is non-empty:
success, with the response assembled from the first element. -/
theorem handler_ok (dfields dlfields : List (String × Json)) (a : Json) (rest : List Json)
    (hdl : (lookupLast dfields "datalist").getD (.obj []) = .obj dlfields)
    (hl : (lookupLast dlfields "list").getD (.arr []) = .arr (a :: rest))
    (hwt : wellTypedApp a = true) :
    get_aptoide_app (.obj dfields) = .ok (assembleFromFirst a) := by
  cases a with
  | null => simp [wellTypedApp] at hwt
  | str s => simp [wellTypedApp] at hwt
  | int n => simp [wellTypedApp] at hwt
  | arr l => simp [wellTypedApp] at hwt
  | obj afs =>
    simp only [wellTypedApp, Bool.and_eq_true] at hwt
    obtain ⟨⟨⟨⟨hname, hsize⟩, hdw⟩, hpkg⟩, hfile⟩ := hwt
    simp only [jgetD] at hname hsize hdw hpkg hfile
    rcases hfj : (lookupLast afs "file").getD (.obj []) with _ | s | n | l | ffs
    · rw [hfj] at hfile; simp [wellTypedFile] at hfile
    · rw [hfj] at hfile; simp [wellTypedFile] at hfile
    · rw [hfj] at hfile; simp [wellTypedFile] at hfile
    · rw [hfj] at hfile; simp [wellTypedFile] at hfile
    rw [hfj] at hfile
    simp only [wellTypedFile, Bool.and_eq_true] at hfile
    obtain ⟨⟨⟨⟨⟨hvn, hadd⟩, hss⟩, hcpu⟩, hcert⟩, hsha⟩ := hfile
    simp only [jgetD] at hvn hadd hss hcpu hcert hsha
    rcases hsj : (lookupLast ffs "signature").getD (.obj []) with _ | s | n | l | sfs
    · rw [hsj] at hcert; simp [certWellFormed] at hcert
    · rw [hsj] at hcert; simp [certWellFormed] at hcert
    · rw [hsj] at hcert; simp [certWellFormed] at hcert
    · rw [hsj] at hcert; simp [certWellFormed] at hcert
    rw [hsj] at hcert hsha
    simp only [jgetD] at hsha
    obtain ⟨cfs, hpc, h1, h2, h3, h4, h5⟩ := parse_certificate_wf (.obj sfs) hcert
    simp only [get_aptoide_app]
    rw [pyGet_obj, hdl, py_bind_ok, pyGet_obj, hl, py_bind_ok]
    rw [if_truthy_cons]
    rw [show pyIndex0 (Json.arr (Json.obj afs :: rest)) = .ok (.obj afs) from rfl, py_bind_ok]
    rw [pyGet_obj, hfj, py_bind_ok]
    rw [pyGet_obj, hsj, py_bind_ok]
    rw [hpc, py_bind_ok]
    rw [pyGet_obj, py_bind_ok, asOptStr_of_isOptStrJ hname, py_bind_ok]
    rw [pyGet_obj, py_bind_ok, asOptInt_of_isOptIntJ hsize, py_bind_ok]
    rw [pyGet_obj, py_bind_ok, asOptInt_of_isOptIntJ hdw, py_bind_ok]
    rw [pyGet_obj, py_bind_ok, asOptStr_of_isOptStrJ hvn, py_bind_ok]
    rw [pyGet_obj, py_bind_ok, asOptStr_of_isOptStrJ hadd, py_bind_ok]
    rw [pyGet_obj, py_bind_ok, asOptStr_of_isOptStrJ hss, py_bind_ok]
    rw [pyGet_obj, py_bind_ok, asOptStr_of_isOptStrJ hcpu, py_bind_ok]
    rw [pyGet_obj, py_bind_ok, asOptStr_of_isOptStrJ hpkg, py_bind_ok]
    rw [pyGet_obj, py_bind_ok, asOptStr_of_isOptStrJ hsha, py_bind_ok]
    rw [pyGet_obj, py_bind_ok, h1, asOptStr_jOfOpt, py_bind_ok]
    rw [pyGet_obj, py_bind_ok, h2, asOptStr_jOfOpt, py_bind_ok]
    rw [pyGet_obj, py_bind_ok, h3, asOptStr_jOfOpt, py_bind_ok]
    rw [pyGet_obj, py_bind_ok, h4, asOptStr_jOfOpt, py_bind_ok]
    rw [pyGet_obj, py_bind_ok, h5, asOptStr_jOfOpt, py_bind_ok]
    rw [py_pure]
    simp only [assembleFromFirst, jgetD, hfj, hsj]


/-- The ℚ-side tier condition of the spec translated to an integer bound:
`B / 1024^j < 1024` iff `B < 1024^(j+1)`. -/
theorem qdiv_lt_iff (B : Int) (j : Nat) :
    ((B : ℚ) / 1024 ^ j < 1024) ↔ B < 1024 ^ (j + 1) := by
  rw [div_lt_iff₀ (by positivity : (0:ℚ) < 1024 ^ j),
      show (1024 : ℚ) * 1024 ^ j = 1024 ^ (j + 1) by ring]
  exact_mod_cast Iff.rfl

/-- The function `roundHalfEven` really is round-to-nearest-ties-to-even: the rounded
value differs from `num/den` by less than 1/2, or by exactly 1/2 with the
rounded value even. -/
theorem roundHalfEven_nearest (num den : Int) (h : 0 < den) :
    |2 * (num - den * roundHalfEven num den)| < den ∨
    (|2 * (num - den * roundHalfEven num den)| = den ∧
      (roundHalfEven num den) % 2 = 0) := by
  simp only [roundHalfEven]
  generalize hq' : num / den = q
  generalize hr' : num % den = r
  have hq : den * q + r = num := by
    rw [← hq', ← hr']
    exact Int.ediv_add_emod num den
  have hr0 : 0 ≤ r := by
    rw [← hr']
    exact Int.emod_nonneg num (by omega)
  have hr1 : r < den := by
    rw [← hr']
    exact Int.emod_lt_of_pos num h
  subst hq
  split_ifs with h1 h2 h3
  · left
    rw [show den * q + r - den * q = r by ring]
    rw [abs_of_nonneg (by omega)]
    omega
  · left
    rw [show den * q + r - den * (q + 1) = r - den by ring]
    rw [abs_of_nonpos (by omega)]
    omega
  · right
    rw [show den * q + r - den * q = r by ring]
    refine ⟨?_, h3⟩
    rw [abs_of_nonneg (by omega)]
    omega
  · right
    rw [show den * q + r - den * (q + 1) = r - den by ring]
    refine ⟨?_, by omega⟩
    rw [abs_of_nonpos (by omega)]
    omega

theorem bitlenFuel_zero (fuel : Nat) : bitlenFuel fuel 0 = 0 := by
  cases fuel <;> rfl

/-- Lower and upper bitlength bounds, for enough fuel. -/
theorem bitlenFuel_bounds : ∀ (fuel n : Nat), n < 2 ^ fuel → 1 ≤ n →
    2 ^ (bitlenFuel fuel n - 1) ≤ n ∧ n < 2 ^ bitlenFuel fuel n := by
  intro fuel
  induction fuel with
  | zero =>
    intro n hn h1
    norm_num at hn
    omega
  | succ f ih =>
    intro n hn h1
    rw [bitlenFuel, if_neg (by omega)]
    by_cases h2 : n / 2 = 0
    · have hone : n = 1 := by omega
      subst hone
      norm_num [bitlenFuel_zero]
    · have hp : 2 ^ (f + 1) = 2 * 2 ^ f := by rw [pow_succ']
      have hhalf : n / 2 < 2 ^ f := by omega
      obtain ⟨ihl, ihu⟩ := ih (n / 2) hhalf (by omega)
      have hb1 : 1 ≤ bitlenFuel f (n / 2) := by
        by_contra hc
        have : bitlenFuel f (n / 2) = 0 := by omega
        rw [this] at ihu
        norm_num at ihu
        omega
      have e1 : 2 * 2 ^ (bitlenFuel f (n / 2) - 1) = 2 ^ bitlenFuel f (n / 2) := by
        rw [← pow_succ']
        congr 1
        omega
      have e2 : 2 * 2 ^ bitlenFuel f (n / 2) = 2 ^ (bitlenFuel f (n / 2) + 1) := by
        rw [← pow_succ']
      constructor
      · have : bitlenFuel f (n / 2) + 1 - 1 = bitlenFuel f (n / 2) := by omega
        rw [this]
        omega
      · omega

theorem bitlen_bounds (n : Nat) (h1 : 1 ≤ n) (h2 : n < 2 ^ 1100) :
    2 ^ (bitlen n - 1) ≤ n ∧ n < 2 ^ bitlen n :=
  bitlenFuel_bounds 1100 n h2 h1

/-- The rounded value is within half a unit of the exact quotient. -/
theorem roundHalfEven_bounds (num den : Int) (h : 0 < den) :
    2 * den * roundHalfEven num den - den ≤ 2 * num ∧
    2 * num ≤ 2 * den * roundHalfEven num den + den := by
  rcases roundHalfEven_nearest num den h with h1 | ⟨h1, _⟩
  · obtain ⟨ha, hb⟩ := abs_lt.mp h1
    constructor <;> nlinarith
  · obtain ⟨ha, hb⟩ := abs_le.mp (le_of_eq h1)
    constructor <;> nlinarith

/-- A rational strictly inside `(j - 1/2, j + 1/2)` rounds to `j`. -/
theorem roundHalfEven_interior (p q j : Int) (hq : 0 < q)
    (h1 : 2 * j * q - q < 2 * p) (h2 : 2 * p < 2 * j * q + q) :
    roundHalfEven p q = j := by
  simp only [roundHalfEven]
  generalize hqq' : p / q = qq
  generalize hr' : p % q = r
  have hpq : q * qq + r = p := by
    rw [← hqq', ← hr']
    exact Int.ediv_add_emod p q
  have hr0 : 0 ≤ r := by
    rw [← hr']
    exact Int.emod_nonneg p (by omega)
  have hr1 : r < q := by
    rw [← hr']
    exact Int.emod_lt_of_pos p hq
  subst hpq
  split_ifs with ha hb hc
  · have hj1 : q * (2 * j) < q * (2 * qq + 2) := by nlinarith
    have hj2 : q * (2 * qq) < q * (2 * j + 1) := by nlinarith
    have c1 := (mul_lt_mul_left hq).mp hj1
    have c2 := (mul_lt_mul_left hq).mp hj2
    omega
  · have hj1 : q * (2 * j) < q * (2 * qq + 3) := by nlinarith
    have hj2 : q * (2 * qq) < q * (2 * j) := by nlinarith
    have c1 := (mul_lt_mul_left hq).mp hj1
    have c2 := (mul_lt_mul_left hq).mp hj2
    omega
  all_goals
    exfalso
    have htie : 2 * r = q := by omega
    have hj1 : q * (2 * j) < q * (2 * qq + 2) := by nlinarith
    have hj2 : q * (2 * qq) < q * (2 * j) := by nlinarith
    have c1 := (mul_lt_mul_left hq).mp hj1
    have c2 := (mul_lt_mul_left hq).mp hj2
    omega

/-- Rounding an exact tie `p/q = j + 1/2`: the even of `j`, `j + 1`. -/
theorem roundHalfEven_tie (p q j : Int) (hq : 0 < q) (h : 2 * p = 2 * j * q + q) :
    roundHalfEven p q = if j % 2 = 0 then j else j + 1 := by
  obtain ⟨t, ht⟩ : ∃ t, q = 2 * t := ⟨p - j * q, by linarith⟩
  have ht1 : 1 ≤ t := by omega
  have hp : p = q * j + t := by linarith
  have hdivmod : p / q = j ∧ p % q = t := by
    constructor
    · rw [hp, show q * j + t = t + q * j by ring,
          Int.add_mul_ediv_left t j (by omega : q ≠ 0),
          Int.ediv_eq_zero_of_lt (by omega) (by omega)]
      omega
    · rw [hp, show q * j + t = t + q * j by ring, Int.add_mul_emod_self_left,
          Int.emod_eq_of_lt (by omega) (by omega)]
  simp only [roundHalfEven, hdivmod.1, hdivmod.2]
  rw [if_neg (by omega), if_neg (by omega)]

/-- Rounding an exact multiple. -/
theorem roundHalfEven_mul (k den : Int) (h : 0 < den) :
    roundHalfEven (den * k) den = k := by
  simp only [roundHalfEven]
  rw [Int.mul_ediv_cancel_left k (by omega : den ≠ 0), Int.mul_emod_right,
      if_pos (by omega)]

/-- Innocuous double rounding: first rounding the exact quotient `D / den` to
the grid of step `2^(-s)` (ties to even) and then to an integer gives the
same result as rounding `D / den` to an integer directly, provided the grid
is finer than half the spacing `1/den` of the possible quotients (`den <
2^(s+1)`) and `den` is even (so a non-tie quotient keeps a full `1/den` of
distance from every half-integer). -/
theorem double_round_eq (D den : Int) (s : Nat) (hden : 2 ≤ den) (heven : den % 2 = 0)
    (hs1 : 1 ≤ s) (h2s : den < 2 ^ (s + 1)) :
    roundHalfEven (roundHalfEven (D * 2 ^ s) den) (2 ^ s) = roundHalfEven D den := by
  have hP2 : (2:Int) ^ (s + 1) = 2 * 2 ^ s := by rw [pow_succ']
  have hPpos : (0:Int) < 2 ^ s := by positivity
  have e1 : (2:Int) * 2 ^ (s - 1) = 2 ^ s := by
    rw [← pow_succ']
    congr 1
    omega
  by_cases htie : (2 * D) % (2 * den) = den
  · have hj0 := Int.ediv_add_emod (2 * D) (2 * den)
    rw [htie] at hj0
    generalize hjdef : (2 * D) / (2 * den) = j at hj0
    have hrhs := roundHalfEven_tie D den j (by omega) (by linarith)
    have hmul : D * 2 ^ s = den * (j * 2 ^ s + 2 ^ (s - 1)) := by
      rw [← e1]
      linear_combination (-((2:Int) ^ (s - 1))) * hj0
    have hm : roundHalfEven (D * 2 ^ s) den = j * 2 ^ s + 2 ^ (s - 1) := by
      rw [hmul]
      exact roundHalfEven_mul _ den (by omega)
    have hfin : roundHalfEven (j * 2 ^ s + 2 ^ (s - 1)) (2 ^ s) =
        if j % 2 = 0 then j else j + 1 := by
      apply roundHalfEven_tie _ _ j hPpos
      rw [← e1]
      ring
    rw [hm, hfin, hrhs]
  · obtain ⟨hb1, hb2⟩ := roundHalfEven_bounds D den (by omega)
    generalize hjdef : roundHalfEven D den = j at hb1 hb2 ⊢
    have hne2 : 2 * D ≠ 2 * den * j + den := by
      intro hcon
      apply htie
      rw [hcon, show 2 * den * j + den = den + (2 * den) * j by ring,
          Int.add_mul_emod_self_left, Int.emod_eq_of_lt (by omega) (by omega)]
    have hne0 : 2 * D ≠ 2 * den * j - den := by
      intro hcon
      apply htie
      rw [hcon, show 2 * den * j - den = den + (2 * den) * (j - 1) by ring,
          Int.add_mul_emod_self_left, Int.emod_eq_of_lt (by omega) (by omega)]
    obtain ⟨A, hA⟩ : ∃ A, den * j = A := ⟨_, rfl⟩
    have hb1' : 2 * A - den ≤ 2 * D := by rw [← hA]; linarith
    have hb2' : 2 * D ≤ 2 * A + den := by rw [← hA]; linarith
    have hne2' : 2 * D ≠ 2 * A + den := by
      rw [← hA]
      intro hc
      exact hne2 (by linarith)
    have hne0' : 2 * D ≠ 2 * A - den := by
      rw [← hA]
      intro hc
      exact hne0 (by linarith)
    have hgapU : 2 * D ≤ 2 * A + den - 2 := by omega
    have hgapL : 2 * A - den + 2 ≤ 2 * D := by omega
    obtain ⟨hm1, hm2⟩ := roundHalfEven_bounds (D * 2 ^ s) den (by omega)
    generalize hmdef : roundHalfEven (D * 2 ^ s) den = m at hm1 hm2 ⊢
    have hden2s : den < 2 * 2 ^ s := by linarith [h2s, hP2]
    apply roundHalfEven_interior m (2 ^ s) j hPpos
    · have t1 : (2 * A - den + 2) * 2 ^ s ≤ 2 * D * 2 ^ s :=
        mul_le_mul_of_nonneg_right hgapL (by positivity)
      have t2 : 2 * D * 2 ^ s ≤ 2 * (den * m) + den := by linarith [hm2]
      have t3 : 2 * (A * 2 ^ s) - den * 2 ^ s < 2 * (den * m) := by nlinarith [t1, t2, hden2s]
      have t4 : den * (2 * (j * 2 ^ s) - 2 ^ s) < den * (2 * m) := by
        have hAe : den * (2 * (j * 2 ^ s)) = 2 * (A * 2 ^ s) := by rw [← hA]; ring
        nlinarith [t3, hAe]
      have := (mul_lt_mul_left (show (0:Int) < den by omega)).mp t4
      linarith
    · have t1 : 2 * D * 2 ^ s ≤ (2 * A + den - 2) * 2 ^ s :=
        mul_le_mul_of_nonneg_right hgapU (by positivity)
      have t2 : 2 * (den * m) - den ≤ 2 * D * 2 ^ s := by linarith [hm1]
      have t3 : 2 * (den * m) < 2 * (A * 2 ^ s) + den * 2 ^ s := by nlinarith [t1, t2, hden2s]
      have t4 : den * (2 * m) < den * (2 * (j * 2 ^ s) + 2 ^ s) := by
        have hAe : den * (2 * (j * 2 ^ s)) = 2 * (A * 2 ^ s) := by rw [← hA]; ring
        nlinarith [t3, hAe]
      have := (mul_lt_mul_left (show (0:Int) < den by omega)).mp t4
      linarith

/-- In the float-exact input range, Python's print of the float quotient
agrees with rounding the exact fraction: for even `0 < den ≤ D < 2^53`,
`f"{D/den:.0f}"` is exactly `round-half-even(D/den)`. -/
theorem pyDivFmt_eq_roundHalfEven (D den : Int) (hden : 2 ≤ den) (heven : den % 2 = 0)
    (hD : den ≤ D) (hD53 : D < 2 ^ 53) :
    pyDivFmt D den = roundHalfEven D den := by
  have hD53' : D < 9007199254740992 := by norm_num at hD53; omega
  simp only [pyDivFmt, fdiv]
  have hfloor := Int.ediv_add_emod D den
  have hmod0 := Int.emod_nonneg D (show den ≠ 0 by omega)
  have hmodlt := Int.emod_lt_of_pos D (show (0:Int) < den by omega)
  generalize hq' : D / den = q at hfloor ⊢
  generalize hr' : D % den = r at hfloor hmod0 hmodlt
  -- 1 ≤ q ≤ D
  have hq1 : 1 ≤ q := by nlinarith
  have hqD : q ≤ D := by nlinarith
  -- bit length of q
  have hqt : q.toNat < 2 ^ 1100 := by
    have h1 : q.toNat ≤ 9007199254740992 := by omega
    have h2 : (9007199254740992 : Nat) < 2 ^ 1100 := by norm_num
    omega
  obtain ⟨hlo, hhi⟩ := bitlen_bounds q.toNat (by omega) hqt
  generalize hL' : bitlen q.toNat = L at hlo hhi ⊢
  have hL1 : 1 ≤ L := by
    by_contra hc
    have hL0 : L = 0 := by omega
    rw [hL0] at hhi
    norm_num at hhi
    omega
  have hbitI : (2:Int) ^ (L - 1) ≤ q := by
    calc (2:Int) ^ (L - 1) = ((2 ^ (L - 1) : Nat) : Int) := by push_cast; ring
      _ ≤ (q.toNat : Int) := by exact_mod_cast hlo
      _ = q := Int.toNat_of_nonneg (by omega)
  have hdq : den * q ≤ D := by nlinarith
  have hL52 : L ≤ 52 := by
    by_contra hcon
    push_neg at hcon
    have h1 : (2:Int) ^ 52 ≤ 2 ^ (L - 1) := pow_le_pow_right₀ (by norm_num) (by omega)
    have h2 : (2:Int) ^ 52 ≤ q := le_trans h1 hbitI
    have h3 : 2 * (2:Int) ^ 52 ≤ den * q := by nlinarith
    have h4 : (2:Int) * 2 ^ 52 = 9007199254740992 := by norm_num
    linarith
  rw [if_neg (by omega : ¬(53 ≤ L))]
  simp only [fmtZero]
  rw [if_neg (by omega : ¬((0:Int) ≤ (L : Int) - 53))]
  rw [show (-(((L:Int)) - 53)).toNat = 53 - L by omega]
  -- den < 2 ^ (53 - L + 1)
  have e1 : (2:Int) * 2 ^ (L - 1) = 2 ^ L := by
    rw [← pow_succ']
    congr 1
    omega
  have hA : den * (2:Int) ^ L ≤ 2 * D := by
    have t1 : den * (2:Int) ^ (L - 1) ≤ den * q :=
      mul_le_mul_of_nonneg_left hbitI (by omega)
    nlinarith [t1, hdq, e1]
  have hden_lt : den < 2 ^ (53 - L + 1) := by
    by_contra hcon
    push_neg at hcon
    have h54 : (2:Int) ^ (53 - L + 1) * 2 ^ L = 2 ^ 54 := by
      rw [← pow_add]
      congr 1
      omega
    have t1 : (2:Int) ^ (53 - L + 1) * 2 ^ L ≤ den * 2 ^ L :=
      mul_le_mul_of_nonneg_right hcon (by positivity)
    have t2 : (2:Int) ^ 54 = 2 * 9007199254740992 := by norm_num
    linarith
  exact double_round_eq D den (53 - L) hden heven (by omega) hden_lt

/-- On the float-exact range (`|B| < 2^53`) Python's `float(B)` is `B` itself. -/
theorem floatOfInt_exact {B : Int} (h : B.natAbs < 2 ^ 53) : floatOfInt B = B := by
  unfold floatOfInt
  rw [if_pos h]

/-- C2, corrected: the claim as stated fails for byte counts beyond the
float-exact range (see `C2_counterexample`); on that range — every positive
`B < 2^53` — it holds: the Size Formatter returns the string whose numeric
prefix is `B / 1024^k` rounded (half-to-even) to zero decimals and whose unit
is the k-th of B, KB, MB, GB, TB, where k is the smallest exponent making
`B / 1024^k < 1024`, capped at `k = 4` (TB) when no such exponent at most 4
exists. -/
theorem C2_size_tiers (B : Int) (hB : 0 < B) (hB53 : B < 2 ^ 53) (k : Nat)
    (hk : (k ≤ 4 ∧ (B : ℚ) / 1024 ^ k < 1024 ∧
             (∀ j : Nat, j < k → ¬((B : ℚ) / 1024 ^ j < 1024))) ∨
          (k = 4 ∧ ∀ j : Nat, j ≤ 4 → ¬((B : ℚ) / 1024 ^ j < 1024))) :
    format_size (some B) = some (toString (roundHalfEven B (1024 ^ k)) ++ " " ++ sizeUnitName k) := by
  have hB0 : ¬(B = 0) := by omega
  have hB53' : B < 9007199254740992 := by norm_num at hB53; omega
  have hfl : floatOfInt B = B := floatOfInt_exact (by omega)
  rcases hk with ⟨hk4, hlt, hmin⟩ | ⟨hkeq, hall⟩
  · rw [qdiv_lt_iff] at hlt
    have hlow : ∀ j : Nat, j < k → 1024 ^ (j + 1) ≤ B := by
      intro j hj
      have h := hmin j hj
      rw [qdiv_lt_iff] at h
      omega
    interval_cases k
    · norm_num at hlt
      simp only [format_size, if_neg hB0, hfl, sizeUnits, sizeLoop]
      rw [if_pos (by omega : B < 1024 * 1)]
      norm_num [sizeUnitName]
    · have h0 := hlow 0 (by omega)
      norm_num at hlt h0
      simp only [format_size, if_neg hB0, hfl, sizeUnits, sizeLoop]
      rw [if_neg (by omega : ¬(B < 1024 * 1)), if_pos (by omega : B < 1024 * (1024 * 1))]
      norm_num [sizeUnitName]
    · have h0 := hlow 1 (by omega)
      norm_num at hlt h0
      simp only [format_size, if_neg hB0, hfl, sizeUnits, sizeLoop]
      rw [if_neg (by omega : ¬(B < 1024 * 1)), if_neg (by omega : ¬(B < 1024 * (1024 * 1))),
          if_pos (by omega : B < 1024 * (1024 * (1024 * 1)))]
      norm_num [sizeUnitName]
    · have h0 := hlow 2 (by omega)
      norm_num at hlt h0
      simp only [format_size, if_neg hB0, hfl, sizeUnits, sizeLoop]
      rw [if_neg (by omega : ¬(B < 1024 * 1)), if_neg (by omega : ¬(B < 1024 * (1024 * 1))),
          if_neg (by omega : ¬(B < 1024 * (1024 * (1024 * 1)))),
          if_pos (by omega : B < 1024 * (1024 * (1024 * (1024 * 1))))]
      norm_num [sizeUnitName]
    · have h0 := hlow 3 (by omega)
      norm_num at h0
      simp only [format_size, if_neg hB0, hfl, sizeUnits, sizeLoop]
      rw [if_neg (by omega : ¬(B < 1024 * 1)), if_neg (by omega : ¬(B < 1024 * (1024 * 1))),
          if_neg (by omega : ¬(B < 1024 * (1024 * (1024 * 1)))),
          if_neg (by omega : ¬(B < 1024 * (1024 * (1024 * (1024 * 1)))))]
      rw [String.append_assoc]
      norm_num [sizeUnitName]
      rfl
  · subst hkeq
    have h3 := hall 3 (by omega)
    rw [qdiv_lt_iff] at h3
    norm_num at h3
    simp only [format_size, if_neg hB0, hfl, sizeUnits, sizeLoop]
    rw [if_neg (by omega : ¬(B < 1024 * 1)), if_neg (by omega : ¬(B < 1024 * (1024 * 1))),
        if_neg (by omega : ¬(B < 1024 * (1024 * (1024 * 1)))),
        if_neg (by omega : ¬(B < 1024 * (1024 * (1024 * (1024 * 1)))))]
    rw [String.append_assoc]
    norm_num [sizeUnitName]
    rfl

/-- C2 as stated is false of the program: at `B = 9008848522182655`
(one below a tie of `float`), every exponent `j ≤ 4` leaves a quotient of at
least 1024 (`B ≥ 1024^5`), so the claim demands the capped prefix
`round-half-even(B / 1024^4) = 8193`; but the source first rounds `B` to
binary64 (ties to even, giving `9008848522182656`), and `%.0f` of the exact
quotient `8193.5` gives "8194 TB". -/
theorem C2_counterexample :
    format_size (some 9008848522182655) = some "8194 TB" ∧
    (1024 : Int) ^ 5 ≤ 9008848522182655 ∧
    toString (roundHalfEven 9008848522182655 (1024 ^ 4)) ++ " " ++ sizeUnitName 4 =
      "8193 TB" ∧
    ("8194 TB" : String) ≠ "8193 TB" := by
  refine ⟨rfl, by norm_num, ?_, by decide⟩
  rfl

theorem C2_witness : format_size (some 2048) = some "2 KB" := by
  have hmin : ∀ j : Nat, j < 1 → ¬((((2048 : Int)) : ℚ) / 1024 ^ j < 1024) := by
    intro j hj
    interval_cases j
    norm_num
  have h := C2_size_tiers 2048 (by norm_num) (by norm_num) 1
    (Or.inl ⟨by norm_num, by norm_num, hmin⟩)
  rw [h]
  rfl


/-- C3, corrected: the claim as stated fails for download counts beyond the
float-exact range (see `C3_counterexample`); with the B tier restricted to
`D < 2^53` it holds: the Download Formatter returns absent for absent or zero
input; the exact decimal string for 1..999; round-half-even(D/1000)+"K" for
1000..999999; round-half-even(D/1e6)+"M" for 1e6 ≤ D < 1e9; and
round-half-even(D/1e9)+"B" for 1e9 ≤ D < 2^53. -/
theorem C3_download_tiers (D : Int) :
    (format_downloads none = none) ∧
    (D = 0 → format_downloads (some D) = none) ∧
    (1 ≤ D → D ≤ 999 → format_downloads (some D) = some (toString D)) ∧
    (1000 ≤ D → D ≤ 999999 →
        format_downloads (some D) = some (toString (roundHalfEven D 1000) ++ "K")) ∧
    (1000000 ≤ D → D < 1000000000 →
        format_downloads (some D) = some (toString (roundHalfEven D 1000000) ++ "M")) ∧
    (1000000000 ≤ D → D < 2 ^ 53 →
        format_downloads (some D) = some (toString (roundHalfEven D 1000000000) ++ "B")) := by
  have h53 : (2:Int) ^ 53 = 9007199254740992 := by norm_num
  refine ⟨rfl, ?_, ?_, ?_, ?_, ?_⟩
  · intro h
    subst h
    rfl
  · intro h1 h2
    simp only [format_downloads]
    rw [if_neg (by omega), if_neg (by omega), if_neg (by omega), if_neg (by omega)]
  · intro h1 h2
    simp only [format_downloads]
    rw [if_neg (by omega), if_neg (by omega), if_neg (by omega), if_pos (by omega)]
    rw [pyDivFmt_eq_roundHalfEven D 1000 (by norm_num) (by norm_num) (by omega) (by omega)]
  · intro h1 h2
    simp only [format_downloads]
    rw [if_neg (by omega), if_neg (by omega), if_pos (by omega)]
    rw [pyDivFmt_eq_roundHalfEven D 1000000 (by norm_num) (by norm_num) (by omega) (by omega)]
  · intro h1 h2
    simp only [format_downloads]
    rw [if_neg (by omega), if_pos (by omega)]
    rw [pyDivFmt_eq_roundHalfEven D 1000000000 (by norm_num) (by norm_num) (by omega)
        (by omega)]

/-- C3 as stated is false of the program: at `D = 8589934593499999999` the
exact quotient `D / 10^9 = 8589934593.499999999` rounds (half-even) to
`8589934593`, but the source's float quotient is the nearest binary64 —
exactly `8589934593.5` — and `%.0f` then rounds the tie to even, printing
"8589934594B". -/
theorem C3_counterexample :
    format_downloads (some 8589934593499999999) = some "8589934594B" ∧
    toString (roundHalfEven 8589934593499999999 1000000000) ++ "B" = "8589934593B" ∧
    ("8589934594B" : String) ≠ "8589934593B" :=
  ⟨rfl, rfl, by decide⟩

theorem C3_witness :
    format_downloads (some 2000000) = some "2M" ∧
    format_downloads (some 500) = some "500" ∧
    format_downloads (some 2500000000) = some "2B" := by
  have h1 := (C3_download_tiers 2000000).2.2.2.2.1 (by decide) (by decide)
  have h2 := (C3_download_tiers 500).2.2.1 (by decide) (by decide)
  have h3 := (C3_download_tiers 2500000000).2.2.2.2.2 (by decide) (by decide)
  rw [h1, h2, h3]
  exact ⟨rfl, rfl, rfl⟩

/-- C5: on any object whose `owner` is a string, the Certificate Parser
splits the owner on commas, splits each segment on the first `=` only, trims
both key and value, skips segments without `=`, ignores keys other than
CN/O/L/ST/C, and maps CN, O, L, ST, C to developer_cn, organization, local,
state_city, country, each missing key yielding an absent (`null`) field —
exactly the spec-side `dnLookup`. -/
theorem C5_certificate_parsing (sfields : List (String × Json)) (owner : String)
    (h : lookupLast sfields "owner" = some (.str owner)) :
    parse_certificate (.obj sfields) =
      .ok (.obj [("developer_cn", jOfOpt (dnLookup owner "CN")),
                 ("organization", jOfOpt (dnLookup owner "O")),
                 ("local", jOfOpt (dnLookup owner "L")),
                 ("state_city", jOfOpt (dnLookup owner "ST")),
                 ("country", jOfOpt (dnLookup owner "C"))]) := by
  rw [parse_certificate_owner sfields owner h]
  unfold certResult
  simp only [dictGetLast_kvPairs]

theorem C5_witness :
    parse_certificate (.obj [("sha1", .str "AA:BB:CC"),
        ("owner", .str "CN=Dev, O=Org, L=City, ST=State, C=US")]) =
      .ok (.obj [("developer_cn", .str "Dev"), ("organization", .str "Org"),
                 ("local", .str "City"), ("state_city", .str "State"),
                 ("country", .str "US")]) := by
  have h := C5_certificate_parsing
    [("sha1", .str "AA:BB:CC"), ("owner", .str "CN=Dev, O=Org, L=City, ST=State, C=US")]
    "CN=Dev, O=Org, L=City, ST=State, C=US" rfl
  rw [h]
  rfl

/-- C6 as stated is false: parsing `{"owner": "CN=Dev"}` yields the
five-field dict, but parsing that output (a well-formed object) yields the
empty dict, not the same result — the output never carries an `owner` key. -/
theorem C6_counterexample :
    parse_certificate (.obj [("owner", .str "CN=Dev")]) =
      .ok (.obj [("developer_cn", .str "Dev"), ("organization", .null), ("local", .null),
                 ("state_city", .null), ("country", .null)]) ∧
    parse_certificate (.obj [("developer_cn", .str "Dev"), ("organization", .null),
                 ("local", .null), ("state_city", .null), ("country", .null)]) =
      .ok (.obj []) ∧
    ¬(Json.obj [] =
        .obj [("developer_cn", .str "Dev"), ("organization", .null), ("local", .null),
              ("state_city", .null), ("country", .null)]) := by
  refine ⟨rfl, rfl, ?_⟩
  intro h
  injection h with h1
  exact List.noConfusion h1

/-- C6 amended: certificate parsing never fails on any signature object whose
`owner`, when present, is a string; parsing an absent object, an object
without `owner`, or an empty `owner` string yields a mapping with all five
derived fields absent; and applying the parser to its own output always
yields the empty mapping (the output never has an `owner` key), so parsing
is idempotent exactly on inputs whose parse already has all fields absent. -/
theorem C6_amended_parsing (x0 : Json) :
    (∀ signature : Json, certWellFormed signature = true →
        ∃ y, parse_certificate signature = .ok y) ∧
    (parse_certificate .null = .ok (.obj [])) ∧
    (∀ sfields : List (String × Json), lookupLast sfields "owner" = none →
        parse_certificate (.obj sfields) = .ok (.obj [])) ∧
    (∀ sfields : List (String × Json), lookupLast sfields "owner" = some (.str "") →
        ∃ y, parse_certificate (.obj sfields) = .ok y ∧ certAbsent y = true) ∧
    (∀ y : Json, parse_certificate x0 = .ok y →
        ∃ z, parse_certificate y = .ok z ∧ certAbsent z = true) := by
  refine ⟨?_, rfl, fun sfields h => parse_certificate_no_owner sfields h, ?_, ?_⟩
  · intro signature h
    cases signature with
    | null => exact ⟨.obj [], rfl⟩
    | str s => simp [certWellFormed] at h
    | int n => simp [certWellFormed] at h
    | arr l => simp [certWellFormed] at h
    | obj sfs =>
      cases ho : lookupLast sfs "owner" with
      | none => exact ⟨.obj [], parse_certificate_no_owner sfs ho⟩
      | some v =>
        cases v with
        | str owner => exact ⟨certResult owner, parse_certificate_owner sfs owner ho⟩
        | null => simp [certWellFormed, ho] at h
        | int n => simp [certWellFormed, ho] at h
        | arr l => simp [certWellFormed, ho] at h
        | obj l => simp [certWellFormed, ho] at h
  · intro sfields h
    exact ⟨certResult "", parse_certificate_owner sfields "" h, rfl⟩
  · intro y h
    cases x0 with
    | null =>
      injection h with h1
      subst h1
      exact ⟨.obj [], rfl, rfl⟩
    | str s =>
      by_cases hs : s = ""
      · subst hs
        injection h with h1
        subst h1
        exact ⟨.obj [], rfl, rfl⟩
      · by_cases hio : hasOwnerSub s.data
        · simp [parse_certificate, Json.truthy, hs, hio] at h
        · simp only [parse_certificate, Json.truthy, hio] at h
          rw [if_neg (by decide : ¬(false = true)), ite_self] at h
          injection h with h1
          subst h1
          exact ⟨.obj [], rfl, rfl⟩
    | int n =>
      by_cases hn : n = 0
      · subst hn
        injection h with h1
        subst h1
        exact ⟨.obj [], rfl, rfl⟩
      · simp [parse_certificate, Json.truthy, hn] at h
    | arr l =>
      cases l with
      | nil =>
        injection h with h1
        subst h1
        exact ⟨.obj [], rfl, rfl⟩
      | cons e es =>
        by_cases hm : ((e :: es).any (fun x => match x with | Json.str t => t == "owner" | _ => false)) = true
        · simp [parse_certificate, Json.truthy, hm] at h
        · simp only [parse_certificate, Json.truthy] at h
          rw [if_neg hm, if_pos (by simp)] at h
          injection h with h1
          subst h1
          exact ⟨.obj [], rfl, rfl⟩
    | obj fs =>
      cases fs with
      | nil =>
        injection h with h1
        subst h1
        exact ⟨.obj [], rfl, rfl⟩
      | cons p ps =>
        cases ho : lookupLast (p :: ps) "owner" with
        | none =>
          rw [parse_certificate_no_owner (p :: ps) ho] at h
          injection h with h1
          subst h1
          exact ⟨.obj [], rfl, rfl⟩
        | some v =>
          cases v with
          | str owner =>
            rw [parse_certificate_owner (p :: ps) owner ho] at h
            injection h with h1
            subst h1
            exact ⟨.obj [], rfl, rfl⟩
          | null =>
            simp [parse_certificate, Json.truthy, ho] at h
          | int n =>
            simp [parse_certificate, Json.truthy, ho] at h
          | arr l2 =>
            simp [parse_certificate, Json.truthy, ho] at h
          | obj l2 =>
            simp [parse_certificate, Json.truthy, ho] at h

theorem C6_witness :
    (∃ y, parse_certificate (.obj [("owner", .str "")]) = .ok y ∧ certAbsent y = true) ∧
    (∃ z, parse_certificate
        (.obj [("developer_cn", .str "Dev"), ("organization", .null), ("local", .null),
               ("state_city", .null), ("country", .null)]) = .ok z ∧ certAbsent z = true) :=
  ⟨(C6_amended_parsing .null).2.2.2.1 [("owner", .str "")] rfl,
   (C6_amended_parsing (.obj [("owner", .str "CN=Dev")])).2.2.2.2
     (.obj [("developer_cn", .str "Dev"), ("organization", .null), ("local", .null),
            ("state_city", .null), ("country", .null)]) rfl⟩

/-- C7: the Remote Fetcher returns the parsed JSON exactly on HTTP 200; any
non-200 status and any raised request (connection failure or timeout) yield a
500 `HTTPException`, the latter with detail "Connection error while
requesting Aptoide: " followed by the underlying cause text. -/
theorem C7_fetcher (status : Nat) (body : Json) (cause : String) :
    (fetch_from_aptoide (.response 200 body) = .ok body) ∧
    (status ≠ 200 → fetch_from_aptoide (.response status body) =
        .error (.http 500 ("Aptoide API error: HTTP " ++ toString status))) ∧
    (fetch_from_aptoide (.exn cause) =
        .error (.http 500 ("Connection error while requesting Aptoide: " ++ cause))) := by
  refine ⟨rfl, ?_, rfl⟩
  intro h
  simp only [fetch_from_aptoide]
  rw [if_pos h]

theorem C7_witness :
    fetch_from_aptoide (.response 404 .null) =
      .error (.http 500 "Aptoide API error: HTTP 404") := by
  have h := (C7_fetcher 404 .null "x").2.1 (by decide)
  rw [h]
  rfl

/-- C8: a zero or absent byte count makes the size field absent (`None`),
never the string "0 B". -/
theorem C8_zero_size_absent :
    format_size none = none ∧ format_size (some 0) = none ∧
    format_size (some 0) ≠ some "0 B" :=
  ⟨rfl, rfl, fun h => Option.noConfusion h⟩

/-- C9: a payload without a `datalist` key, or whose `datalist` object lacks
a `list` key, is handled exactly like an empty result list: the 404
"Package not found" error, not a crash. -/
theorem C9_missing_keys_notfound (dfields : List (String × Json))
    (h : lookupLast dfields "datalist" = none ∨
         ∃ g, lookupLast dfields "datalist" = some (.obj g) ∧ lookupLast g "list" = none) :
    get_aptoide_app (.obj dfields) = .error (.http 404 "Package not found") := by
  rcases h with h | ⟨g, hg, hl⟩
  · exact handler_notfound dfields [] (by rw [h]; rfl) rfl
  · exact handler_notfound dfields g (by rw [hg]; rfl) (by rw [hl]; rfl)

theorem C9_witness :
    get_aptoide_app (.obj [("status", .str "OK")]) = .error (.http 404 "Package not found") :=
  C9_missing_keys_notfound [("status", .str "OK")] (Or.inl rfl)

/-- C10, corrected: the claim as stated fails for negatives beyond the
float-exact range (see `C10_counterexample`); both formatters do treat a
negative count as present, and for `-2^53 < n < 0` the Size Formatter
returns the string of n at the B tier (the loop never divides), while the
Download Formatter returns the exact decimal string of every negative n with
no suffix (its negative path involves no float at all). -/
theorem C10_negative_formatting (n : Int) (h : n < 0) :
    (-(2 ^ 53) < n → format_size (some n) = some (toString n ++ " B")) ∧
    format_downloads (some n) = some (toString n) := by
  constructor
  · intro h53
    have hfl : floatOfInt n = n := floatOfInt_exact (by
      have : (2:Int) ^ 53 = 9007199254740992 := by norm_num
      omega)
    simp only [format_size, if_neg (by omega : ¬(n = 0)), hfl, sizeUnits, sizeLoop]
    rw [if_pos (by omega : n < 1024 * 1)]
    rw [show roundHalfEven n 1 = n by
      simp only [roundHalfEven, Int.emod_one, Int.ediv_one]
      norm_num]
    rw [String.append_assoc]
    rfl
  · simp only [format_downloads]
    rw [if_neg (by omega), if_neg (by omega), if_neg (by omega), if_neg (by omega)]

/-- C10 as stated is false of the program for huge negative byte counts: at
`n = -(2^53 + 1)`, `float(n)` rounds the tie to even, to `-2^53`, so the
program prints "-9007199254740992 B" instead of the claimed exact decimal
string of n followed by " B". -/
theorem C10_counterexample :
    format_size (some (-9007199254740993)) = some "-9007199254740992 B" ∧
    toString (-9007199254740993 : Int) ++ " B" = "-9007199254740993 B" ∧
    ("-9007199254740992 B" : String) ≠ "-9007199254740993 B" :=
  ⟨rfl, rfl, by decide⟩

theorem C10_witness :
    format_size (some (-5)) = some "-5 B" ∧ format_downloads (some (-5)) = some "-5" := by
  have h := C10_negative_formatting (-5) (by decide)
  rw [h.1 (by decide), h.2]
  exact ⟨rfl, rfl⟩


/-- C1: for every payload whose result list is non-empty (after the
defaulting `get` chain) and whose first element is typed as the data model
says, the handler succeeds with exactly the record `assembleFromFirst`
builds from the FIRST element — the spec's field-by-field correspondence,
with missing `file`/`signature` sub-objects defaulting to empty objects and
yielding absent fields, and the remaining elements `rest` ignored. -/
theorem C1_first_element_assembly (dfields dlfields : List (String × Json))
    (a : Json) (rest : List Json)
    (hdl : (lookupLast dfields "datalist").getD (.obj []) = .obj dlfields)
    (hl : (lookupLast dlfields "list").getD (.arr []) = .arr (a :: rest))
    (hwt : wellTypedApp a = true) :
    get_aptoide_app (.obj dfields) = .ok (assembleFromFirst a) :=
  handler_ok dfields dlfields a rest hdl hl hwt

theorem C1_witness :
    get_aptoide_app (.obj [("datalist", .obj [("list", .arr
      [.obj [("name", .str "Test App"), ("size", .int 20971520),
             ("downloads", .int 2000000), ("package", .str "com.test.app"),
             ("file", .obj [("vername", .str "1.0.0"), ("added", .str "2025-01-01"),
                ("screensize", .str "SMALL"), ("cpu", .str "arm64-v8a"),
                ("signature", .obj [("sha1", .str "AA:BB:CC"),
                   ("owner", .str "CN=Dev, O=Org, L=City, ST=State, C=US")])])],
       .obj [("name", .str "Ignored Second Result")]])])]) =
    .ok { name := some "Test App", size := some "20 MB", downloads := some "2M",
          version := some "1.0.0", release_date := some "2025-01-01",
          min_screen := some "SMALL", supported_cpu := some "arm64-v8a",
          package_id := some "com.test.app", sha1_signature := some "AA:BB:CC",
          developer_cn := some "Dev", organization := some "Org",
          local_ := some "City", country := some "US", state_city := some "State" } := by
  have h := C1_first_element_assembly
    [("datalist", .obj [("list", .arr
      [.obj [("name", .str "Test App"), ("size", .int 20971520),
             ("downloads", .int 2000000), ("package", .str "com.test.app"),
             ("file", .obj [("vername", .str "1.0.0"), ("added", .str "2025-01-01"),
                ("screensize", .str "SMALL"), ("cpu", .str "arm64-v8a"),
                ("signature", .obj [("sha1", .str "AA:BB:CC"),
                   ("owner", .str "CN=Dev, O=Org, L=City, ST=State, C=US")])])],
       .obj [("name", .str "Ignored Second Result")]])])]
    [("list", .arr
      [.obj [("name", .str "Test App"), ("size", .int 20971520),
             ("downloads", .int 2000000), ("package", .str "com.test.app"),
             ("file", .obj [("vername", .str "1.0.0"), ("added", .str "2025-01-01"),
                ("screensize", .str "SMALL"), ("cpu", .str "arm64-v8a"),
                ("signature", .obj [("sha1", .str "AA:BB:CC"),
                   ("owner", .str "CN=Dev, O=Org, L=City, ST=State, C=US")])])],
       .obj [("name", .str "Ignored Second Result")]])]
    (.obj [("name", .str "Test App"), ("size", .int 20971520),
           ("downloads", .int 2000000), ("package", .str "com.test.app"),
           ("file", .obj [("vername", .str "1.0.0"), ("added", .str "2025-01-01"),
              ("screensize", .str "SMALL"), ("cpu", .str "arm64-v8a"),
              ("signature", .obj [("sha1", .str "AA:BB:CC"),
                 ("owner", .str "CN=Dev, O=Org, L=City, ST=State, C=US")])])])
    [.obj [("name", .str "Ignored Second Result")]]
    rfl rfl rfl
  rw [h]
  rfl

/-- C4: under the data model's typing of a non-empty first result, the
handler fails with the 404 `HTTPException` whose detail is exactly
"Package not found" if and only if the (defaulted) result list is empty;
with a non-empty list it returns a success response. -/
theorem C4_notfound_iff (dfields dlfields : List (String × Json)) (apps : List Json)
    (hdl : (lookupLast dfields "datalist").getD (.obj []) = .obj dlfields)
    (hl : (lookupLast dlfields "list").getD (.arr []) = .arr apps)
    (hwt : ∀ x ∈ apps.take 1, wellTypedApp x = true) :
    (get_aptoide_app (.obj dfields) = .error (.http 404 "Package not found") ↔ apps = []) ∧
    (apps ≠ [] → ∃ r, get_aptoide_app (.obj dfields) = .ok r) := by
  cases apps with
  | nil =>
    exact ⟨⟨fun _ => rfl, fun _ => handler_notfound dfields dlfields hdl hl⟩,
           fun hne => absurd rfl hne⟩
  | cons a rest =>
    have hwta : wellTypedApp a = true := hwt a (by simp)
    have hok := handler_ok dfields dlfields a rest hdl hl hwta
    refine ⟨⟨fun hcontra => ?_, fun hcontra => List.noConfusion hcontra⟩,
            fun _ => ⟨assembleFromFirst a, hok⟩⟩
    rw [hok] at hcontra
    exact Except.noConfusion hcontra

theorem C4_witness :
    get_aptoide_app (.obj [("datalist", .obj [("list", .arr [])])]) =
      .error (.http 404 "Package not found") := by
  have h := C4_notfound_iff [("datalist", .obj [("list", .arr [])])]
    [("list", .arr [])] [] rfl rfl (by simp)
  exact h.1.mpr rfl

end Aptoide
